import Mathlib

/-!
Shallow embedding of the transactions CLI core
(`src/transactions/models.rs` and `src/clients/models.rs`).

Monetary amounts are `f32` in the source; they are modelled here as exact
rationals (`Rat`), abstracting floating-point rounding: every claim under
study is about the algebraic / control-flow structure of the transitions,
not about rounding. `u32` identifiers are modelled as `Nat` (they are only
compared for equality / ordered, never arithmetically combined).
-/

/-- One input record, mirroring `struct Transaction` in
`src/transactions/models.rs` (fields `tx_type`, `client`, `tx`, `amount`). -/
structure Transaction where
  tx_type : String
  client : Nat
  tx : Nat
  amount : Rat
deriving DecidableEq

instance : Inhabited Transaction := ⟨⟨"", 0, 0, 0⟩⟩

namespace Transaction

/-- Mirrors `Transaction::is_dispute`: the dispute-family kinds. -/
def is_dispute (t : Transaction) : Bool :=
  match t.tx_type with
  | "dispute" => true
  | "resolve" => true
  | "chargeback" => true
  | _ => false

/-- Mirrors `Transaction::get_prev_trans`: index of the first transaction
with the given `tx` id and type `"deposit"` (Rust `iter().position(...)`). -/
def get_prev_trans (txs : List Transaction) (tx_id : Nat) : Option Nat :=
  txs.findIdx? (fun t => t.tx == tx_id && t.tx_type == "deposit")

end Transaction

/-- Mirrors `struct Client` in `src/clients/models.rs`. -/
structure Client where
  client : Nat
  available : Rat
  held : Rat
  total : Rat
  locked : Bool
deriving DecidableEq

namespace Client

/-- Mirrors `Client::new`: fresh zero-balance unlocked account. -/
def new (client : Nat) : Client :=
  { client := client, available := 0, held := 0, total := 0, locked := false }

/-- Mirrors `Client::new_transaction`: the per-kind balance mutation,
followed by the unconditional recomputation `total = available + held`. -/
def new_transaction (self : Client) (tx_type : String) (amount : Rat) : Client :=
  let s : Client :=
    match tx_type with
    | "deposit" => { self with available := self.available + amount }
    | "withdrawal" =>
        if self.available - amount > 0 then
          { self with available := self.available - amount }
        else self
    | "dispute" =>
        { self with available := self.available - amount, held := self.held + amount }
    | "resolve" =>
        { self with available := self.available + self.held, held := self.held - amount }
    | "chargeback" =>
        { self with held := self.held - amount, locked := true }
    | _ => self
  { s with total := s.available + s.held }

end Client

/-- One iteration of the `for transaction in txs` loop body of
`Client::process_transactions`. Rust's panicking index operations
`clients[cl_index]` and `txs[ori_tx_id]` are modelled with `getD`
defaults; `processStepChecked` below models the panic possibility
explicitly and is proven to agree. -/
def processStep (txs : List Transaction) (clients : List Client)
    (t : Transaction) : List Client :=
  match clients.findIdx? (fun c => c.client == t.client) with
  | some i =>
      let c := (clients[i]?).getD (Client.new t.client)
      if c.locked then clients
      else if t.is_dispute then
        match Transaction.get_prev_trans txs t.tx with
        | some j =>
            clients.set i
              (c.new_transaction t.tx_type ((txs[j]?.getD default).amount))
        | none => clients.set i (c.new_transaction t.tx_type t.amount)
      else clients.set i (c.new_transaction t.tx_type t.amount)
  | none => clients ++ [(Client.new t.client).new_transaction t.tx_type t.amount]

/-- Mirrors `Client::process_transactions`: fold the loop body over the
transaction list, starting from the empty client list. -/
def processTransactions (txs : List Transaction) : List Client :=
  txs.foldl (processStep txs) []

/-- Variant of `processStep` in which every vector index is checked:
`none` marks exactly the places where the Rust code would panic on an
out-of-bounds index. -/
def processStepChecked (txs : List Transaction) (clients : List Client)
    (t : Transaction) : Option (List Client) :=
  match clients.findIdx? (fun c => c.client == t.client) with
  | some i =>
      match clients[i]? with
      | none => none
      | some c =>
        if c.locked then some clients
        else if t.is_dispute then
          match Transaction.get_prev_trans txs t.tx with
          | some j =>
              match txs[j]? with
              | none => none
              | some d => some (clients.set i (c.new_transaction t.tx_type d.amount))
          | none => some (clients.set i (c.new_transaction t.tx_type t.amount))
        else some (clients.set i (c.new_transaction t.tx_type t.amount))
  | none =>
      some (clients ++ [(Client.new t.client).new_transaction t.tx_type t.amount])

/-- Index-checked replay: `none` iff some step would panic. -/
def processTransactionsChecked (txs : List Transaction) : Option (List Client) :=
  txs.foldlM (processStepChecked txs) []

/-- The comparison used by `transactions.sort_by_key(|a| a.tx)`. -/
def txLE (a b : Transaction) : Bool := Nat.ble a.tx b.tx

/-- Mirrors the sorting step of `Transaction::get_transactions`:
a stable sort of the records by `tx` id ascending. -/
def sortTransactions (txs : List Transaction) : List Transaction :=
  txs.mergeSort txLE

/-- The engine pipeline on already-parsed records: stable sort by `tx`,
then replay (`main` glues `get_transactions` into `process_transactions`). -/
def pipeline (txs : List Transaction) : List Client :=
  processTransactions (sortTransactions txs)

/-- The account the engine's client list holds for client id `c`:
the first list entry with that id (Rust `iter().position(...)` lookup). -/
def accountOf (c : Nat) (clients : List Client) : Option Client :=
  clients.find? (fun a => a.client == c)

/-! ### Helper lemmas about the embedded definitions -/

lemma new_transaction_deposit (s : Client) (q : Rat) :
    s.new_transaction "deposit" q =
      { s with available := s.available + q, total := s.available + q + s.held } := rfl

lemma new_transaction_withdrawal (s : Client) (q : Rat) :
    s.new_transaction "withdrawal" q =
      if s.available - q > 0 then
        { s with available := s.available - q, total := s.available - q + s.held }
      else { s with total := s.available + s.held } := by
  unfold Client.new_transaction
  by_cases h : s.available - q > 0 <;> simp [h]

lemma new_transaction_dispute (s : Client) (q : Rat) :
    s.new_transaction "dispute" q =
      { s with available := s.available - q, held := s.held + q,
               total := s.available - q + (s.held + q) } := rfl

lemma new_transaction_resolve (s : Client) (q : Rat) :
    s.new_transaction "resolve" q =
      { s with available := s.available + s.held, held := s.held - q,
               total := s.available + s.held + (s.held - q) } := rfl

lemma new_transaction_chargeback (s : Client) (q : Rat) :
    s.new_transaction "chargeback" q =
      { s with held := s.held - q, locked := true,
               total := s.available + (s.held - q) } := rfl

lemma client_new_transaction (s : Client) (ty : String) (q : Rat) :
    (s.new_transaction ty q).client = s.client := by
  unfold Client.new_transaction
  split <;> first | rfl | (split <;> rfl)

lemma total_new_transaction (s : Client) (ty : String) (q : Rat) :
    (s.new_transaction ty q).total =
      (s.new_transaction ty q).available + (s.new_transaction ty q).held := rfl

lemma getElem?_of_findIdx? {α : Type} {p : α → Bool} :
    ∀ {l : List α} {i : Nat}, l.findIdx? p = some i → l[i]? = l.find? p := by
  intro l
  induction l with
  | nil => intro i h; simp at h
  | cons x xs ih =>
    intro i h
    simp only [List.findIdx?_cons, Nat.zero_add, List.findIdx?_succ] at h
    by_cases hp : p x
    · simp only [hp, if_pos] at h
      cases h
      simp [hp]
    · simp only [hp, if_neg, Bool.false_eq_true, not_false_iff, Option.map_eq_some'] at h
      obtain ⟨j, hj, rfl⟩ := h
      simpa [hp] using ih hj

lemma find?_of_findIdx? {α : Type} {p : α → Bool} {l : List α} {i : Nat}
    (h : l.findIdx? p = some i) :
    ∃ c, l[i]? = some c ∧ p c = true ∧ l.find? p = some c := by
  rcases List.findIdx?_eq_some_iff_getElem.mp h with ⟨hlen, hp, -⟩
  refine ⟨l[i], ?_, hp, ?_⟩
  · simp
  · rw [← getElem?_of_findIdx? h]
    simp

lemma find?_set_of_neg {α : Type} {p : α → Bool} :
    ∀ {l : List α} {i : Nat} {x : α}, p x = false →
      (∀ y, l[i]? = some y → p y = false) →
      (l.set i x).find? p = l.find? p := by
  intro l
  induction l with
  | nil => intro i x _ _; simp
  | cons a as ih =>
    intro i x hx hold
    cases i with
    | zero =>
      have ha : p a = false := hold a (by simp)
      simp [List.set, List.find?, hx, ha]
    | succ n =>
      have := fun y hy => hold y (by simpa using hy)
      by_cases hpa : p a <;> simp [List.set, List.find?, hpa, ih hx this]

lemma find?_append_some {α : Type} {p : α → Bool} {l l' : List α} {a : α}
    (h : l.find? p = some a) : (l ++ l').find? p = some a := by
  simp [List.find?_append, h]

lemma processStep_not_found {txs : List Transaction} {cs : List Client} {t : Transaction}
    (h : cs.findIdx? (fun c => c.client == t.client) = none) :
    processStep txs cs t =
      cs ++ [(Client.new t.client).new_transaction t.tx_type t.amount] := by
  unfold processStep
  rw [h]

lemma processStep_locked {txs : List Transaction} {cs : List Client} {t : Transaction}
    {i : Nat} {c : Client}
    (h : cs.findIdx? (fun b => b.client == t.client) = some i)
    (hc : cs[i]? = some c) (hl : c.locked = true) :
    processStep txs cs t = cs := by
  unfold processStep
  rw [h]
  dsimp only
  rw [hc]
  simp [hl]

lemma processStep_found_dispute {txs : List Transaction} {cs : List Client} {t : Transaction}
    {i j : Nat} {c : Client} {d : Transaction}
    (h : cs.findIdx? (fun b => b.client == t.client) = some i)
    (hc : cs[i]? = some c) (hl : c.locked = false) (hd : t.is_dispute = true)
    (hj : Transaction.get_prev_trans txs t.tx = some j) (hdep : txs[j]? = some d) :
    processStep txs cs t = cs.set i (c.new_transaction t.tx_type d.amount) := by
  unfold processStep
  rw [h]
  dsimp only
  rw [hc]
  simp only [Option.getD_some, hl, hd, hj]
  simp [hdep]

lemma processStep_found_dispute_unmatched {txs : List Transaction} {cs : List Client}
    {t : Transaction} {i : Nat} {c : Client}
    (h : cs.findIdx? (fun b => b.client == t.client) = some i)
    (hc : cs[i]? = some c) (hl : c.locked = false) (hd : t.is_dispute = true)
    (hj : Transaction.get_prev_trans txs t.tx = none) :
    processStep txs cs t = cs.set i (c.new_transaction t.tx_type t.amount) := by
  unfold processStep
  rw [h]
  dsimp only
  rw [hc]
  simp [hl, hd, hj]

lemma processStep_found_plain {txs : List Transaction} {cs : List Client} {t : Transaction}
    {i : Nat} {c : Client}
    (h : cs.findIdx? (fun b => b.client == t.client) = some i)
    (hc : cs[i]? = some c) (hl : c.locked = false) (hd : t.is_dispute = false) :
    processStep txs cs t = cs.set i (c.new_transaction t.tx_type t.amount) := by
  unfold processStep
  rw [h]
  dsimp only
  rw [hc]
  simp [hl, hd]

lemma processStepChecked_eq (txs : List Transaction) (cs : List Client) (t : Transaction) :
    processStepChecked txs cs t = some (processStep txs cs t) := by
  cases h : cs.findIdx? (fun b => b.client == t.client) with
  | none =>
    unfold processStepChecked
    rw [h, processStep_not_found h]
  | some i =>
    obtain ⟨c, hc, -, -⟩ := find?_of_findIdx? h
    by_cases hl : c.locked
    · unfold processStepChecked
      rw [h]
      dsimp only
      rw [hc, processStep_locked h hc hl]
      simp [hl]
    · rw [Bool.not_eq_true] at hl
      by_cases hd : t.is_dispute
      · cases hj : Transaction.get_prev_trans txs t.tx with
        | none =>
          unfold processStepChecked
          rw [h]
          dsimp only
          rw [hc, processStep_found_dispute_unmatched h hc hl hd hj]
          simp [hl, hd, hj]
        | some j =>
          obtain ⟨d, hdep, -, -⟩ := find?_of_findIdx? hj
          unfold processStepChecked
          rw [h]
          dsimp only
          rw [hc, processStep_found_dispute h hc hl hd hj hdep]
          simp [hl, hd, hj, hdep]
      · rw [Bool.not_eq_true] at hd
        unfold processStepChecked
        rw [h]
        dsimp only
        rw [hc, processStep_found_plain h hc hl hd]
        simp [hl, hd]

lemma foldlM_processStepChecked (txs : List Transaction) :
    ∀ (l : List Transaction) (s : List Client),
      List.foldlM (processStepChecked txs) s l = some (List.foldl (processStep txs) s l) := by
  intro l
  induction l with
  | nil => intro s; rfl
  | cons t rest ih =>
    intro s
    simp only [List.foldlM_cons, processStepChecked_eq, Option.bind_eq_bind,
      Option.some_bind, ih, List.foldl_cons]

lemma accountOf_set_new_transaction {cs : List Client} {i : Nat} {b : Client}
    {ty : String} {q : Rat} {c : Nat}
    (hb : cs[i]? = some b) (hne : (b.client == c) = false) :
    accountOf c (cs.set i (b.new_transaction ty q)) = accountOf c cs := by
  unfold accountOf
  apply find?_set_of_neg
  · rw [client_new_transaction]
    exact hne
  · intro y hy
    rw [hb] at hy
    cases hy
    exact hne

lemma accountOf_processStep_locked (txs : List Transaction) (cs : List Client)
    (t : Transaction) {c : Nat} {a : Client}
    (h : accountOf c cs = some a) (hl : a.locked = true) :
    accountOf c (processStep txs cs t) = some a := by
  cases hidx : cs.findIdx? (fun b => b.client == t.client) with
  | none =>
    rw [processStep_not_found hidx]
    exact find?_append_some h
  | some i =>
    obtain ⟨b, hb, hpb, hfind⟩ := find?_of_findIdx? hidx
    by_cases hbc : t.client = c
    · subst hbc
      have hba : b = a := by
        have : cs.find? (fun x => x.client == t.client) = some a := h
        rw [this] at hfind
        exact (Option.some_inj.mp hfind).symm
      subst hba
      rw [processStep_locked hidx hb hl]
      exact h
    · have hne : (b.client == c) = false := by
        have : b.client = t.client := by simpa using hpb
        simp [this, hbc]
      by_cases hbl : b.locked
      · rw [processStep_locked hidx hb hbl]
        exact h
      · rw [Bool.not_eq_true] at hbl
        by_cases hd : t.is_dispute
        · cases hj : Transaction.get_prev_trans txs t.tx with
          | none =>
            rw [processStep_found_dispute_unmatched hidx hb hbl hd hj,
              accountOf_set_new_transaction hb hne]
            exact h
          | some j =>
            obtain ⟨d, hdep, -, -⟩ := find?_of_findIdx? hj
            rw [processStep_found_dispute hidx hb hbl hd hj hdep,
              accountOf_set_new_transaction hb hne]
            exact h
        · rw [Bool.not_eq_true] at hd
          rw [processStep_found_plain hidx hb hbl hd,
            accountOf_set_new_transaction hb hne]
          exact h

lemma accountOf_foldl_locked (txs : List Transaction) :
    ∀ (l : List Transaction) (cs : List Client) {c : Nat} {a : Client},
      accountOf c cs = some a → a.locked = true →
      accountOf c (List.foldl (processStep txs) cs l) = some a := by
  intro l
  induction l with
  | nil => intro cs c a h _; exact h
  | cons t rest ih =>
    intro cs c a h hl
    rw [List.foldl_cons]
    exact ih _ (accountOf_processStep_locked txs cs t h hl) hl

lemma total_invariant_processStep {txs : List Transaction} {cs : List Client}
    {t : Transaction} (h : ∀ a ∈ cs, a.total = a.available + a.held) :
    ∀ a ∈ processStep txs cs t, a.total = a.available + a.held := by
  intro a ha
  cases hidx : cs.findIdx? (fun b => b.client == t.client) with
  | none =>
    rw [processStep_not_found hidx] at ha
    rcases List.mem_append.mp ha with h1 | h1
    · exact h a h1
    · simp only [List.mem_singleton] at h1
      subst h1
      exact total_new_transaction _ _ _
  | some i =>
    obtain ⟨b, hb, -, -⟩ := find?_of_findIdx? hidx
    by_cases hbl : b.locked
    · rw [processStep_locked hidx hb hbl] at ha
      exact h a ha
    · rw [Bool.not_eq_true] at hbl
      have hset : ∀ x ty q, a ∈ cs.set i (Client.new_transaction x ty q) →
          a.total = a.available + a.held := by
        intro x ty q hmem
        rcases List.mem_or_eq_of_mem_set hmem with h1 | h1
        · exact h a h1
        · subst h1
          exact total_new_transaction _ _ _
      by_cases hd : t.is_dispute
      · cases hj : Transaction.get_prev_trans txs t.tx with
        | none =>
          rw [processStep_found_dispute_unmatched hidx hb hbl hd hj] at ha
          exact hset _ _ _ ha
        | some j =>
          obtain ⟨d, hdep, -, -⟩ := find?_of_findIdx? hj
          rw [processStep_found_dispute hidx hb hbl hd hj hdep] at ha
          exact hset _ _ _ ha
      · rw [Bool.not_eq_true] at hd
        rw [processStep_found_plain hidx hb hbl hd] at ha
        exact hset _ _ _ ha

lemma total_invariant_foldl (txs : List Transaction) :
    ∀ (l : List Transaction) (cs : List Client),
      (∀ a ∈ cs, a.total = a.available + a.held) →
      ∀ a ∈ List.foldl (processStep txs) cs l, a.total = a.available + a.held := by
  intro l
  induction l with
  | nil => intro cs h; exact h
  | cons t rest ih =>
    intro cs h
    rw [List.foldl_cons]
    exact ih _ (total_invariant_processStep h)

lemma deposits_foldl (TXS : List Transaction) (c : Nat) :
    ∀ (l : List Transaction) (s : Rat),
      (∀ t ∈ l, t.tx_type = "deposit" ∧ t.client = c) →
      List.foldl (processStep TXS) [⟨c, s, 0, s, false⟩] l =
        [⟨c, s + (l.map Transaction.amount).sum, 0,
          s + (l.map Transaction.amount).sum, false⟩] := by
  intro l
  induction l with
  | nil => intro s _; simp
  | cons t rest ih =>
    intro s hall
    obtain ⟨hty, hcl⟩ := hall t (by simp)
    have hstep : processStep TXS [⟨c, s, 0, s, false⟩] t =
        [⟨c, s + t.amount, 0, s + t.amount, false⟩] := by
      have hidx : List.findIdx? (fun b => b.client == t.client)
          [(⟨c, s, 0, s, false⟩ : Client)] = some 0 := by
        simp [hcl]
      have hdisp : t.is_dispute = false := by
        unfold Transaction.is_dispute
        rw [hty]
        rfl
      have hget : [(⟨c, s, 0, s, false⟩ : Client)][0]? =
          some (⟨c, s, 0, s, false⟩ : Client) := rfl
      rw [processStep_found_plain hidx hget rfl hdisp, hty]
      rw [show ((⟨c, s, 0, s, false⟩ : Client).new_transaction "deposit" t.amount) =
        ⟨c, s + t.amount, 0, s + t.amount, false⟩ from by
          rw [new_transaction_deposit]; simp]
      rfl
    rw [List.foldl_cons, hstep, ih (s + t.amount) (fun x hx => hall x (by simp [hx]))]
    simp [add_assoc]

lemma txLE_trans : ∀ a b c : Transaction, txLE a b → txLE b c → txLE a c := by
  intro a b c h1 h2
  simp only [txLE, Nat.ble_eq] at *
  omega

lemma txLE_total : ∀ a b : Transaction, txLE a b || txLE b a := by
  intro a b
  simp only [txLE, Nat.ble_eq, Bool.or_eq_true]
  omega

lemma pairwise_lt_of_pairwise_le_nodup {l : List Transaction}
    (h1 : l.Pairwise (fun a b => txLE a b = true))
    (h2 : (l.map Transaction.tx).Nodup) :
    l.Pairwise (fun a b => a.tx < b.tx) := by
  have h2' : l.Pairwise (fun a b => a.tx ≠ b.tx) := List.pairwise_map.mp h2
  exact (h1.and h2').imp fun h =>
    Nat.lt_of_le_of_ne (by simpa [txLE, Nat.ble_eq] using h.1) h.2

lemma sortTransactions_eq_of_perm {l₁ l₂ : List Transaction} (hp : l₁.Perm l₂)
    (hn : (l₁.map Transaction.tx).Nodup) :
    sortTransactions l₁ = sortTransactions l₂ := by
  haveI : IsAntisymm Transaction (fun a b => a.tx < b.tx) :=
    ⟨fun a b h1 h2 => absurd h1 (Nat.lt_asymm h2)⟩
  have hn₂ : (l₂.map Transaction.tx).Nodup := ((hp.map Transaction.tx).nodup_iff).mp hn
  apply List.eq_of_perm_of_sorted (r := fun a b : Transaction => a.tx < b.tx)
  · exact (List.mergeSort_perm l₁ txLE).trans (hp.trans (List.mergeSort_perm l₂ txLE).symm)
  · exact pairwise_lt_of_pairwise_le_nodup
      (List.sorted_mergeSort txLE_trans txLE_total l₁)
      (((List.mergeSort_perm l₁ txLE).map Transaction.tx).nodup_iff.mpr hn)
  · exact pairwise_lt_of_pairwise_le_nodup
      (List.sorted_mergeSort txLE_trans txLE_total l₂)
      (((List.mergeSort_perm l₂ txLE).map Transaction.tx).nodup_iff.mpr hn₂)

/-! ### Claim theorems -/

/-- C2 (amended): for a dispute-family transaction aimed at a client that
already has an (unlocked) account, when a deposit with the same `tx` id
exists in the stream, the engine applies the transition with that deposit
record's amount (not the transaction's own amount field). The original
claim's extension to a client for which this is the first transaction is
false (see the counterexample): the fresh-client branch performs no deposit
lookup. -/
theorem c2_matched_dispute_uses_deposit_amount (txs : List Transaction)
    (cs : List Client) (t : Transaction) (i j : Nat) (c : Client) (d : Transaction)
    (hi : cs.findIdx? (fun b => b.client == t.client) = some i)
    (hc : cs[i]? = some c) (hl : c.locked = false) (hd : t.is_dispute = true)
    (hj : Transaction.get_prev_trans txs t.tx = some j) (hdep : txs[j]? = some d) :
    processStep txs cs t = cs.set i (c.new_transaction t.tx_type d.amount) ∧
    d.tx = t.tx ∧ d.tx_type = "deposit" := by
  refine ⟨processStep_found_dispute hi hc hl hd hj hdep, ?_⟩
  obtain ⟨d', hd', hp, -⟩ := find?_of_findIdx? hj
  rw [hdep] at hd'
  cases hd'
  simpa using hp

/-- C3 (amended): replay is insensitive to the input order for multisets of
transactions with pairwise distinct `tx` ids. As stated, the claim is false:
a dispute-family record shares its `tx` id with the deposit it references,
and the stable sort then preserves their relative input order, which is
observable (see the counterexample). -/
theorem c3_perm_invariance_of_nodup_txids (l₁ l₂ : List Transaction)
    (hp : l₁.Perm l₂) (hn : (l₁.map Transaction.tx).Nodup) :
    pipeline l₁ = pipeline l₂ := by
  unfold pipeline
  rw [sortTransactions_eq_of_perm hp hn]

/-- C4: once an account's locked flag is true, every subsequent transaction
in the stream leaves that account exactly as it is (all four fields),
whatever the rest of the stream does. -/
theorem c4_locked_account_frozen (pre post : List Transaction) (c : Nat) (a : Client)
    (h : accountOf c (List.foldl (processStep (pre ++ post)) [] pre) = some a)
    (hl : a.locked = true) :
    accountOf c (processTransactions (pre ++ post)) = some a := by
  unfold processTransactions
  rw [List.foldl_append]
  exact accountOf_foldl_locked (pre ++ post) post _ h hl

/-- C5 (amended): for an account whose held balance is zero (and whose
`total` satisfies the maintained invariant), Dispute with amount `q`
followed by Resolve with amount `q` restores `available`, returns `held` to
its previous value, and leaves `total` unchanged. For nonzero prior `held`
the claim is false, because Resolve adds the entire held balance to
available (see the counterexample). -/
theorem c5_dispute_resolve_pair_zero_held (a : Client) (q : Rat)
    (h0 : a.held = 0) (hinv : a.total = a.available + a.held) :
    ((a.new_transaction "dispute" q).new_transaction "resolve" q).available = a.available ∧
    ((a.new_transaction "dispute" q).new_transaction "resolve" q).held = a.held ∧
    ((a.new_transaction "dispute" q).new_transaction "resolve" q).total = a.total := by
  simp only [new_transaction_dispute, new_transaction_resolve]
  refine ⟨?_, ?_, ?_⟩ <;> simp [h0, hinv]

/-- C6: the withdrawal transition decrements `available` exactly when
`available - amount` is strictly positive; a withdrawal that would leave
available exactly 0 returns the account unchanged. -/
theorem c6_withdrawal_strict_positivity (a : Client) (q : Rat)
    (hinv : a.total = a.available + a.held) :
    ((a.new_transaction "withdrawal" q).available =
      if a.available - q > 0 then a.available - q else a.available) ∧
    (a.available - q = 0 → a.new_transaction "withdrawal" q = a) := by
  constructor
  · rw [new_transaction_withdrawal]
    by_cases h : a.available - q > 0 <;> simp [h]
  · intro h0
    have hneg : ¬ (a.available - q > 0) := by rw [h0]; exact lt_irrefl 0
    rw [new_transaction_withdrawal, if_neg hneg]
    cases a with
    | mk cl av he tot lk => simp_all

/-- C7: every account the engine ever produces satisfies
`total = available + held`: it holds of `Client.new`, it holds after any
`new_transaction` (any kind, recognized or not), and it holds of every
account in the replay output. -/
theorem c7_total_eq_available_plus_held (c : Nat) (ty : String) (q : Rat)
    (b : Client) (txs : List Transaction) (a : Client)
    (ha : a ∈ processTransactions txs) :
    (Client.new c).total = (Client.new c).available + (Client.new c).held ∧
    (b.new_transaction ty q).total =
      (b.new_transaction ty q).available + (b.new_transaction ty q).held ∧
    a.total = a.available + a.held := by
  refine ⟨by simp [Client.new], total_new_transaction b ty q, ?_⟩
  exact total_invariant_foldl txs txs [] (by simp) a ha

/-- C8: a nonempty stream of deposits, all to one client `c`, yields exactly
one account, with `available = total = sum of the amounts` and `held = 0`. -/
theorem c8_deposit_only_single_client (txs : List Transaction) (c : Nat)
    (hne : txs ≠ [])
    (hall : ∀ t ∈ txs, t.tx_type = "deposit" ∧ t.client = c) :
    processTransactions txs =
      [⟨c, (txs.map Transaction.amount).sum, 0,
        (txs.map Transaction.amount).sum, false⟩] := by
  cases txs with
  | nil => exact absurd rfl hne
  | cons t0 rest =>
    obtain ⟨hty0, hcl0⟩ := hall t0 (by simp)
    unfold processTransactions
    rw [List.foldl_cons]
    have hstep : processStep (t0 :: rest) [] t0 =
        [⟨c, t0.amount, 0, t0.amount, false⟩] := by
      rw [processStep_not_found (by simp), hty0, new_transaction_deposit]
      simp [Client.new, hcl0]
    rw [hstep, deposits_foldl (t0 :: rest) c rest t0.amount
      (fun x hx => hall x (by simp [hx]))]
    simp

/-- C9: the replay core is total and panic-free: the index-checked replay,
in which `none` marks exactly the places where the Rust code would index a
vector out of bounds, succeeds on every input and agrees with the replay
function. -/
theorem c9_replay_total_no_panic (txs : List Transaction) :
    processTransactionsChecked txs = some (processTransactions txs) :=
  foldlM_processStepChecked txs txs []

/-- C10: when a dispute-family transaction targets a client with no existing
account, the engine appends a fresh zero-balance account transitioned with
the transaction's own amount field — no deposit lookup happens (the
statement holds for every surrounding stream `txs`) — and if that
transaction is a chargeback the resulting account is locked. -/
theorem c10_first_transaction_own_amount (txs : List Transaction)
    (cs : List Client) (t : Transaction)
    (hnew : ∀ b ∈ cs, (b.client == t.client) = false)
    (hd : t.is_dispute = true) :
    processStep txs cs t =
      cs ++ [(Client.new t.client).new_transaction t.tx_type t.amount] ∧
    (t.tx_type = "chargeback" →
      ((Client.new t.client).new_transaction t.tx_type t.amount).locked = true) := by
  constructor
  · exact processStep_not_found (List.findIdx?_eq_none_iff.mpr hnew)
  · intro hty
    rw [hty, new_transaction_chargeback]

/-! ### Concrete evaluations: counterexamples and witnesses -/

section

set_option allowUnsafeReducibility true
attribute [local semireducible] Rat.add Rat.sub Rat.mul Rat.inv

example : processTransactions
    [⟨"deposit", 1, 1, 1⟩, ⟨"deposit", 1, 2, 2⟩, ⟨"withdrawal", 1, 3, (3:Rat)/2⟩]
    = [⟨1, (3:Rat)/2, 0, (3:Rat)/2, false⟩] := by decide

example : processTransactions [⟨"deposit", 1, 1, 5⟩, ⟨"dispute", 1, 1, 0⟩]
    = [⟨1, 0, 5, 5, false⟩] := by decide

/-- C1: evaluation of the code at the failing input. The spec requires a
dispute-family transaction whose `tx` id matches no deposit to be a no-op,
but the code falls through and applies the transition with the
transaction's own amount: a chargeback referencing the unknown `tx` id 2
locks client 1's account instead of leaving it unlocked. -/
theorem c1_unmatched_chargeback_mutates :
    processTransactions [⟨"deposit", 1, 1, 5⟩, ⟨"chargeback", 1, 2, 0⟩] =
      [⟨1, 5, 0, 5, true⟩] := by decide

/-- C2 counterexample: a dispute whose `tx` id matches a deposit (of another
client) but which is its own client's first transaction is applied with the
transaction's own amount 0, not with the deposit's amount 5. -/
theorem c2_counterexample :
    accountOf 1 (processTransactions [⟨"deposit", 2, 1, 5⟩, ⟨"dispute", 1, 1, 0⟩]) =
      some ((Client.new 1).new_transaction "dispute" 0) ∧
    (Client.new 1).new_transaction "dispute" 0 ≠
      (Client.new 1).new_transaction "dispute" 5 := by decide

/-- C2 witness: with an existing unlocked account for client 1, the dispute
on `tx` 1 is applied with the matching deposit's amount 5. -/
theorem c2_witness :
    processStep [⟨"deposit", 1, 1, 5⟩, ⟨"dispute", 1, 1, 0⟩]
        [⟨1, 5, 0, 5, false⟩] ⟨"dispute", 1, 1, 0⟩ =
      [(⟨1, 5, 0, 5, false⟩ : Client)].set 0
        ((⟨1, 5, 0, 5, false⟩ : Client).new_transaction "dispute" 5) ∧
    (1 : Nat) = 1 ∧ "deposit" = "deposit" := by
  have h := c2_matched_dispute_uses_deposit_amount
    [⟨"deposit", 1, 1, 5⟩, ⟨"dispute", 1, 1, 0⟩] [⟨1, 5, 0, 5, false⟩]
    ⟨"dispute", 1, 1, 0⟩ 0 0 ⟨1, 5, 0, 5, false⟩ ⟨"deposit", 1, 1, 5⟩
    (by decide) rfl rfl rfl (by decide) rfl
  exact ⟨h.1, h.2.1, h.2.2⟩

/-- C3 counterexample: two permutations of the same multiset — a deposit and
a dispute sharing `tx` id 1 — produce different final account states,
because the stable sort preserves their relative input order. -/
theorem c3_counterexample :
    ([⟨"dispute", 1, 1, 0⟩, ⟨"deposit", 1, 1, 5⟩] : List Transaction).Perm
      [⟨"deposit", 1, 1, 5⟩, ⟨"dispute", 1, 1, 0⟩] ∧
    pipeline [⟨"dispute", 1, 1, 0⟩, ⟨"deposit", 1, 1, 5⟩] ≠
      pipeline [⟨"deposit", 1, 1, 5⟩, ⟨"dispute", 1, 1, 0⟩] := by
  constructor
  · exact List.Perm.swap _ _ _
  · have h₁ : sortTransactions [⟨"dispute", 1, 1, 0⟩, ⟨"deposit", 1, 1, 5⟩] =
        [⟨"dispute", 1, 1, 0⟩, ⟨"deposit", 1, 1, 5⟩] := by
      unfold sortTransactions
      exact List.mergeSort_of_sorted (by decide)
    have h₂ : sortTransactions [⟨"deposit", 1, 1, 5⟩, ⟨"dispute", 1, 1, 0⟩] =
        [⟨"deposit", 1, 1, 5⟩, ⟨"dispute", 1, 1, 0⟩] := by
      unfold sortTransactions
      exact List.mergeSort_of_sorted (by decide)
    unfold pipeline
    rw [h₁, h₂]
    decide

/-- C3 witness: two orderings of two deposits with distinct `tx` ids give
the same final account states. -/
theorem c3_witness :
    pipeline [⟨"deposit", 1, 2, 7⟩, ⟨"deposit", 1, 1, 5⟩] =
      pipeline [⟨"deposit", 1, 1, 5⟩, ⟨"deposit", 1, 2, 7⟩] :=
  c3_perm_invariance_of_nodup_txids _ _ (List.Perm.swap _ _ _) (by decide)

/-- C4 witness: after a first-transaction chargeback locks client 1, a later
deposit leaves the locked account untouched. -/
theorem c4_witness :
    accountOf 1 (processTransactions
      ([⟨"chargeback", 1, 1, 1⟩] ++ [⟨"deposit", 1, 2, 5⟩])) =
      some ⟨1, 0, -1, -1, true⟩ :=
  c4_locked_account_frozen [⟨"chargeback", 1, 1, 1⟩] [⟨"deposit", 1, 2, 5⟩] 1
    ⟨1, 0, -1, -1, true⟩ (by decide) rfl

/-- C5 counterexample: with held = 1 before the pair, Dispute then Resolve
with the same amount changes `total` (1 becomes 2), refuting the claim for
general account states. -/
theorem c5_counterexample :
    (((⟨1, 0, 1, 1, false⟩ : Client).new_transaction "dispute" 1).new_transaction
        "resolve" 1).total ≠ (⟨1, 0, 1, 1, false⟩ : Client).total := by decide

/-- C5 witness: from available 7, held 0, the Dispute(3)/Resolve(3) pair
restores the account's balances. -/
theorem c5_witness :
    (((⟨2, 7, 0, 7, false⟩ : Client).new_transaction "dispute" 3).new_transaction
        "resolve" 3).available = (⟨2, 7, 0, 7, false⟩ : Client).available ∧
    (((⟨2, 7, 0, 7, false⟩ : Client).new_transaction "dispute" 3).new_transaction
        "resolve" 3).held = (⟨2, 7, 0, 7, false⟩ : Client).held ∧
    (((⟨2, 7, 0, 7, false⟩ : Client).new_transaction "dispute" 3).new_transaction
        "resolve" 3).total = (⟨2, 7, 0, 7, false⟩ : Client).total :=
  c5_dispute_resolve_pair_zero_held ⟨2, 7, 0, 7, false⟩ 3 (by decide) (by decide)

/-- C6 witness: withdrawing the full available balance 5 is rejected and the
account is returned unchanged. -/
theorem c6_witness :
    (((⟨1, 5, 0, 5, false⟩ : Client).new_transaction "withdrawal" 5).available =
      if (⟨1, 5, 0, 5, false⟩ : Client).available - 5 > 0 then
        (⟨1, 5, 0, 5, false⟩ : Client).available - 5
      else (⟨1, 5, 0, 5, false⟩ : Client).available) ∧
    ((⟨1, 5, 0, 5, false⟩ : Client).available - 5 = 0 →
      (⟨1, 5, 0, 5, false⟩ : Client).new_transaction "withdrawal" 5 =
        ⟨1, 5, 0, 5, false⟩) :=
  c6_withdrawal_strict_positivity ⟨1, 5, 0, 5, false⟩ 5 (by decide)

/-- C7 witness: the `total = available + held` invariant at concrete points,
including an unrecognized transaction kind. -/
theorem c7_witness :
    (Client.new 3).total = (Client.new 3).available + (Client.new 3).held ∧
    ((⟨1, 2, 3, 5, false⟩ : Client).new_transaction "frobnicate" 2).total =
      ((⟨1, 2, 3, 5, false⟩ : Client).new_transaction "frobnicate" 2).available +
      ((⟨1, 2, 3, 5, false⟩ : Client).new_transaction "frobnicate" 2).held ∧
    (⟨1, 5, 0, 5, false⟩ : Client).total =
      (⟨1, 5, 0, 5, false⟩ : Client).available + (⟨1, 5, 0, 5, false⟩ : Client).held :=
  c7_total_eq_available_plus_held 3 "frobnicate" 2 ⟨1, 2, 3, 5, false⟩
    [⟨"deposit", 1, 1, 5⟩] ⟨1, 5, 0, 5, false⟩ (by decide)

/-- C8 witness: two deposits of 2 and 3 to client 4 give one account with
available = total = 5 and held = 0. -/
theorem c8_witness :
    processTransactions [⟨"deposit", 4, 1, 2⟩, ⟨"deposit", 4, 2, 3⟩] =
      [⟨4, (([⟨"deposit", 4, 1, 2⟩, ⟨"deposit", 4, 2, 3⟩] : List Transaction).map
          Transaction.amount).sum, 0,
        (([⟨"deposit", 4, 1, 2⟩, ⟨"deposit", 4, 2, 3⟩] : List Transaction).map
          Transaction.amount).sum, false⟩] :=
  c8_deposit_only_single_client [⟨"deposit", 4, 1, 2⟩, ⟨"deposit", 4, 2, 3⟩] 4
    (by simp) (by decide)

/-- C10 witness: a chargeback that is client 7's first transaction, in a
stream with no deposit at all, creates the account and locks it. -/
theorem c10_witness :
    processStep [⟨"chargeback", 7, 3, 2⟩] [] ⟨"chargeback", 7, 3, 2⟩ =
      [] ++ [(Client.new 7).new_transaction "chargeback" 2] ∧
    ((Client.new 7).new_transaction "chargeback" 2).locked = true := by
  have h := c10_first_transaction_own_amount [⟨"chargeback", 7, 3, 2⟩] []
    ⟨"chargeback", 7, 3, 2⟩ (by simp) rfl
  exact ⟨h.1, h.2 rfl⟩

end
